import Mathlib

/-!
# Verification of the poly-solver core (src/maths.js)

Shallow embedding of the expression normalizer (`parseExpression`), the
algebra-bridge operation (`runSympyCommand`), the command dispatcher
(the `switch` in `runSympyCommand` plus the graph split in `doMaths`)
and the sampler (`computeXYWithPyodide`), together with theorems that
settle the specification claims against the code.

Strings are modelled as Lean `String` / `List Char`; JavaScript numbers
and NumPy floats are idealized as `ℚ` (the claims under study concern
exact sample positions, ordering and gap bookkeeping, not rounding).
-/

set_option autoImplicit false

/-! ## Character classes used by the regexes in `parseExpression`

`isWs` models the JavaScript `\s` class (restricted to its ASCII members,
which are the only whitespace the claims exercise); `isDigitCh` models
`\d` = `[0-9]`; `isLetterCh` models `[a-zA-Z]`; `isAlnumCh` models
`[a-zA-Z0-9]`. -/

def isWs (c : Char) : Bool :=
  c = ' ' || c = '\t' || c = '\n' || c = '\r' || c = '\x0b' || c = '\x0c'

def isDigitCh (c : Char) : Bool :=
  '0' ≤ c && c ≤ '9'

def isLetterCh (c : Char) : Bool :=
  ('a' ≤ c && c ≤ 'z') || ('A' ≤ c && c ≤ 'Z')

def isAlnumCh (c : Char) : Bool :=
  isLetterCh c || isDigitCh c

/-! ## The normalizer pipeline (src/maths.js lines 18-29)

Each JavaScript `String.replace` with a global regex is translated into a
structural scan over `List Char`.  Matches of the regexes involved never
overlap and never contain a character that could begin a later match, so
the left-to-right scan below produces exactly the JS result. -/

/-- `expr.trim()` : strip leading and trailing whitespace. -/
def dropTrailingWs (l : List Char) : List Char :=
  (l.reverse.dropWhile isWs).reverse

/-- JS `trim` on the character list. -/
def trimWs (l : List Char) : List Char :=
  dropTrailingWs (l.dropWhile isWs)

/-- `parsed.replace(/\^/g, "**")` : every caret becomes two asterisks. -/
def caretStep : List Char → List Char
  | [] => []
  | c :: rest => if c = '^' then '*' :: '*' :: caretStep rest else c :: caretStep rest

/-- `parsed.replace(/(\d)([a-zA-Z])/g, "$1*$2")` : a digit immediately
followed by a letter gets a `*` inserted between them; scanning resumes
after the matched letter, as in JS global replace. -/
def digitLetterStep : List Char → List Char
  | [] => []
  | [c] => [c]
  | c1 :: c2 :: rest =>
    if isDigitCh c1 && isLetterCh c2 then c1 :: '*' :: c2 :: digitLetterStep rest
    else c1 :: digitLetterStep (c2 :: rest)

/-- Lookahead for `/\s*[a-zA-Z0-9]/` : after skipping whitespace, the next
character is alphanumeric. -/
def wsAlnumAfter (l : List Char) : Bool :=
  match l.dropWhile isWs with
  | c :: _ => isAlnumCh c
  | [] => false

/-- `parsed.replace(/(\))(\s*[a-zA-Z0-9])/g, "$1*$2")` : a `*` is inserted
after every `)` whose next non-whitespace character is alphanumeric (the
matched whitespace and alphanumeric are re-emitted by `$2`, so the scan
simply continues through them; no match can begin inside that span since
a match starts with `)`). -/
def closeParenStep : List Char → List Char
  | [] => []
  | c :: rest =>
    if c = ')' && wsAlnumAfter rest then c :: '*' :: closeParenStep rest
    else c :: closeParenStep rest

/-- Lookahead for `/\s*\(/` : after skipping whitespace, the next character
is an opening parenthesis. -/
def wsParenAfter (l : List Char) : Bool :=
  match l.dropWhile isWs with
  | c :: _ => c = '('
  | [] => false

/-- `parsed.replace(/(\d)(\s*\()/g, "$1*(")` : a digit followed (through
whitespace) by `(` becomes `digit*(`, the intervening whitespace being
dropped by the replacement.  The Boolean flag records that the scan is
inside the whitespace run of a match, to be skipped up to the `(`. -/
def digitParenStep : Bool → List Char → List Char
  | _, [] => []
  | true, c :: rest =>
    if isWs c then digitParenStep true rest else c :: digitParenStep false rest
  | false, c :: rest =>
    if isDigitCh c && wsParenAfter rest then c :: '*' :: digitParenStep true rest
    else c :: digitParenStep false rest

/-- `parsed.replace(/\)\s*\(/g, ")*(")` : `)` followed (through whitespace)
by `(` becomes `)*(`, dropping the whitespace; same flag scheme. -/
def parenParenStep : Bool → List Char → List Char
  | _, [] => []
  | true, c :: rest =>
    if isWs c then parenParenStep true rest else c :: parenParenStep false rest
  | false, c :: rest =>
    if c = ')' && wsParenAfter rest then c :: '*' :: parenParenStep true rest
    else c :: parenParenStep false rest

/-- `parsed.replace(/\s+/g, " ")` : each maximal whitespace run collapses
to a single space.  The flag records being inside a run already emitted. -/
def collapseWsStep : Bool → List Char → List Char
  | _, [] => []
  | inRun, c :: rest =>
    if isWs c then
      (if inRun then [] else [' ']) ++ collapseWsStep true rest
    else c :: collapseWsStep false rest

/-- Index of the first `=` in the list (JS leftmost regex match). -/
def eqIdx (l : List Char) : Nat :=
  l.findIdx (fun c => c = '=')

/-- `if (parsed.includes("=")) parsed = parsed.replace(/\s*=\s*/, "-(") + ")"` :
the leftmost match of `\s*=\s*` is the first `=` together with the maximal
whitespace runs immediately around it, so the rewrite removes that
whitespace, splices in `-(`, and a `)` is appended at the very end. -/
def eqStep (l : List Char) : List Char :=
  if '=' ∈ l then
    dropTrailingWs (l.take (eqIdx l)) ++
      ('-' :: '(' :: ((l.drop (eqIdx l + 1)).dropWhile isWs)) ++ [')']
  else l

/-- The pipeline of src/maths.js lines 20-26, before the equation rewrite. -/
def preEq (l : List Char) : List Char :=
  collapseWsStep false (parenParenStep false (digitParenStep false
    (closeParenStep (digitLetterStep (caretStep (trimWs l))))))

/-- Whole normalizer on character lists. -/
def parseList (l : List Char) : List Char :=
  eqStep (preEq l)

/-- `parseExpression` of src/maths.js (string-typed input branch). -/
def parseExpression (s : String) : String :=
  String.mk (parseList s.data)

/-! ## The algebra bridge: `runSympyCommand` (src/maths.js lines 93-158)

The function assembles a Python program of the shape

```text
expr = sympify(user_expr, ...)      -- OUTSIDE the try block
result_str = ""
try:
    <command-specific body>
except Exception as e:
    result_str = "Error: " + str(e)
result_str
```

so an exception from `sympify` (a parse failure of the normalized
expression) escapes the program and is returned to the JS caller as a
rejection, while an exception raised inside the command body becomes the
`"Error: "`-prefixed success string.  The embedded SymPy engine is
external; it is modelled as a record of fallible functions: `sympify`
parses a string into an engine term of abstract type `α`, and each
command body computes `result_str` from that term or raises
(`Except.error` carries Python's `str(e)`). -/

structure SymEngine (α : Type) where
  sympify : String → Except String α
  solveL : α → Except String String
  solveNumericL : α → Except String String
  evalfL : α → Except String String
  factorL : α → Except String String
  diffL : α → Except String String
  integrateL : α → Except String String
  simplifyL : α → Except String String
  expandL : α → Except String String

/-- Semantics of the command-specific Python body (the `try` block):
the eight mathematical commands invoke the engine, `graph` assigns the
fixed sentinel, and the `default` branch assigns the unknown-command
message; the two assignment branches cannot raise. -/
def runBody {α : Type} (eng : SymEngine α) (command : String) (e : α) :
    Except String String :=
  if command = "solve" then eng.solveL e
  else if command = "solvenumeric" then eng.solveNumericL e
  else if command = "evaluate" then eng.evalfL e
  else if command = "factor" then eng.factorL e
  else if command = "diff" then eng.diffL e
  else if command = "integrate" then eng.integrateL e
  else if command = "simplify" then eng.simplifyL e
  else if command = "expand" then eng.expandL e
  else if command = "graph" then Except.ok "GRAPH_COMMAND"
  else Except.ok ("Unknown command: " ++ command)

/-- `runSympyCommand` of src/maths.js: `sympify` runs outside the `try`
block, so its failure is returned raw; a body failure is converted into
the `"Error: "`-prefixed result string. -/
def runSympyCommand {α : Type} (eng : SymEngine α) (exprParsed command : String) :
    Except String String :=
  match eng.sympify exprParsed with
  | Except.error e => Except.error e
  | Except.ok ex =>
    match runBody eng command ex with
    | Except.error msg => Except.ok ("Error: " ++ msg)
    | Except.ok s => Except.ok s

/-! ## The command dispatcher

Two layers: `doMaths` (src/maths.js lines 271-276) routes `graph` to the
sampler (`plotExpression`) and every other command string to the bridge
(`runSympyCommand`); inside the bridge, the `switch` of lines 99-138
selects the Python body text for the command. -/

inductive DispatchPath where
  | sampler
  | bridge
  deriving DecidableEq

/-- The `if (command === "graph")` split of `doMaths`. -/
def dispatchPath (command : String) : DispatchPath :=
  if command = "graph" then DispatchPath.sampler else DispatchPath.bridge

/-- Fixed text of the unknown-command template up to the interpolation. -/
def unknownPre : String := "result_str = \"Unknown command: "

/-- The `switch (command)` of src/maths.js lines 100-138: the exact Python
source text selected for each command (a JS `switch` compares the
scrutinee against each case label in order, the `default` interpolating
the offending identifier into the message). -/
def commandBody (command : String) : String :=
  if command = "solve" then
    "\nroots = solve(expr, x)\nresult_str = latex(Matrix(roots))\n"
  else if command = "solvenumeric" then
    "\nroots = solve(expr, x)\nnumeric_roots = [N(r) for r in roots]\nresult_str = latex(Matrix(numeric_roots))\n"
  else if command = "evaluate" then
    "result_str = latex(expr.evalf())\n"
  else if command = "factor" then
    "result_str = latex(factor(expr))\n"
  else if command = "diff" then
    "result_str = latex(diff(expr, x))\n"
  else if command = "integrate" then
    "result_str = latex(integrate(expr, x))\n"
  else if command = "simplify" then
    "result_str = latex(simplify(expr))\n"
  else if command = "expand" then
    "result_str = latex(expand(expr))\n"
  else if command = "graph" then
    "# graph handled separately\nresult_str = \"GRAPH_COMMAND\"\n"
  else
    unknownPre ++ command ++ "\"\n"

/-- The command strings the `switch` recognizes. -/
def knownCommands : List String :=
  ["solve", "solvenumeric", "evaluate", "factor", "diff",
   "integrate", "simplify", "expand", "graph"]

/-! ## The sampler: `computeXYWithPyodide` (src/maths.js lines 46-91)

The Python half evaluates `lambdify(x, expr, "numpy")` elementwise on
`numpy.linspace(xMin, xMax, points)`; each value goes through `float(v)`
(a complex or otherwise non-convertible value raises and is recorded as
`None`) and the list is serialized with `json.dumps`, which renders the
non-finite floats as the bare tokens `Infinity`, `-Infinity` and `NaN`.
The JS half then calls `JSON.parse`, which rejects exactly those tokens,
and finally maps `null`/non-finite entries to `null`.  The numeric
evaluation of the expression is abstracted as a function `f : ℚ → PyVal`
giving the float produced at each sample point. -/

inductive PyVal where
  | finite (q : ℚ)
  | posInf
  | negInf
  | nan
  | nonReal
  deriving DecidableEq

inductive JsonNumTok where
  | num (q : ℚ)
  | infinityTok
  | negInfinityTok
  | nanTok
  | nullTok
  deriving DecidableEq

/-- `float(v)` + `json.dumps`: the token serialized for one value. -/
def toJsonTok : PyVal → JsonNumTok
  | PyVal.finite q => JsonNumTok.num q
  | PyVal.posInf => JsonNumTok.infinityTok
  | PyVal.negInf => JsonNumTok.negInfinityTok
  | PyVal.nan => JsonNumTok.nanTok
  | PyVal.nonReal => JsonNumTok.nullTok

/-- `JSON.parse` accepts a token iff it is a number or `null`. -/
def jsonParsable : JsonNumTok → Bool
  | JsonNumTok.num _ => true
  | JsonNumTok.nullTok => true
  | _ => false

/-- The JS sanitize map (lines 80-85): `null` stays `null`, non-finite
numbers become `null`, finite numbers pass through. -/
def sanitizeTok : JsonNumTok → Option ℚ
  | JsonNumTok.num q => some q
  | _ => none

/-- `numpy.linspace(xMin, xMax, n)` over `ℚ`: `n` evenly spaced points,
both endpoints included when `n ≥ 2`; `[xMin]` when `n = 1`; `[]` when
`n = 0`. -/
def linspace (xMin xMax : ℚ) (n : ℕ) : List ℚ :=
  if n = 0 then []
  else if n = 1 then [xMin]
  else (List.range n).map (fun (i : ℕ) => xMin + (i : ℚ) * ((xMax - xMin) / ((n : ℚ) - 1)))

/-- `computeXYWithPyodide`: sample `f` on the linspace grid, serialize,
`JSON.parse` (failing when any token is non-finite — the function body
has only `try`/`finally`, no `catch`, so the failure escapes), then
sanitize. -/
def computeXYWithPyodide (f : ℚ → PyVal) (xMin xMax : ℚ) (points : ℕ) :
    Except String (List ℚ × List (Option ℚ)) :=
  let xs := linspace xMin xMax points
  let toks := xs.map (fun q => toJsonTok (f q))
  if toks.all jsonParsable then
    Except.ok (xs, toks.map sanitizeTok)
  else
    Except.error "SyntaxError: Unexpected non-whitespace character after JSON"

/-- NumPy evaluation of the normalized expression `1/x`: IEEE division
gives `+∞` at `x = 0` (a warning, not an exception) and the exact finite
reciprocal elsewhere. -/
def recipVal (q : ℚ) : PyVal :=
  if q = 0 then PyVal.posInf else PyVal.finite (1 / q)

/-- NumPy evaluation of the normalized expression `x` (finite everywhere). -/
def idVal (q : ℚ) : PyVal :=
  PyVal.finite q

/-! ## The non-string early return of `parseExpression` (line 19)

`if (typeof expr !== "string") return expr;` — modelled on a small
universe of JavaScript values. -/

inductive JsValue where
  | str (s : String)
  | num (q : ℚ)
  | boolean (b : Bool)
  | nullV
  | undefinedV
  deriving DecidableEq

/-- `typeof expr === "string"`. -/
def isStrVal : JsValue → Bool
  | JsValue.str _ => true
  | _ => false

/-- `parseExpression` on an arbitrary JS value: non-strings are returned
unchanged, strings go through the normalizer. -/
def parseExpressionJs : JsValue → JsValue
  | JsValue.str s => JsValue.str (parseExpression s)
  | v => v

/-! ## Engine-acceptable form

The spec's idempotence property is restricted to inputs "already in
engine-acceptable form (no `^`, no `=`, no implicit multiplication, no
redundant whitespace)".  The predicate below renders those conditions:
no caret, no equals sign, no site matched by any of the four
implicit-multiplication regexes, every whitespace character a single
plain space, and no surrounding whitespace. -/

def noEdgeWs (l : List Char) : Bool :=
  (l.head?.all fun c => !isWs c) && (l.getLast?.all fun c => !isWs c)

def okDigitLetter : List Char → Bool
  | c1 :: c2 :: rest => !(isDigitCh c1 && isLetterCh c2) && okDigitLetter (c2 :: rest)
  | _ => true

def okCloseParen : List Char → Bool
  | [] => true
  | c :: rest => !(c = ')' && wsAlnumAfter rest) && okCloseParen rest

def okDigitParen : List Char → Bool
  | [] => true
  | c :: rest => !(isDigitCh c && wsParenAfter rest) && okDigitParen rest

def okParenParen : List Char → Bool
  | [] => true
  | c :: rest => !(c = ')' && wsParenAfter rest) && okParenParen rest

def okWs : List Char → Bool
  | [] => true
  | c :: rest =>
    (if isWs c then c = ' ' && (rest.head?.all fun d => !isWs d) else true) && okWs rest

def engineAcceptable (l : List Char) : Bool :=
  noEdgeWs l && !('^' ∈ l) && !('=' ∈ l) &&
  okDigitLetter l && okCloseParen l && okDigitParen l && okParenParen l && okWs l


/-! ## Each pipeline stage fixes engine-acceptable input -/

theorem dropWhile_eq_self_of_head (l : List Char)
    (h : l.head?.all (fun c => !isWs c) = true) : l.dropWhile isWs = l := by
  cases l with
  | nil => rfl
  | cons c rest =>
    simp only [List.head?_cons, Option.all_some, Bool.not_eq_true'] at h
    simp [List.dropWhile_cons, h]

theorem trimWs_eq_self (l : List Char) (h : noEdgeWs l = true) : trimWs l = l := by
  simp only [noEdgeWs, Bool.and_eq_true] at h
  obtain ⟨h1, h2⟩ := h
  unfold trimWs dropTrailingWs
  rw [dropWhile_eq_self_of_head l h1]
  rw [dropWhile_eq_self_of_head l.reverse (by rwa [List.head?_reverse])]
  exact List.reverse_reverse l

theorem caretStep_eq_self (l : List Char) (h : '^' ∉ l) : caretStep l = l := by
  induction l with
  | nil => rfl
  | cons c rest ih =>
    simp only [List.mem_cons, not_or] at h
    simp [caretStep, Ne.symm h.1, ih h.2]

theorem digitLetterStep_eq_self (l : List Char) (h : okDigitLetter l = true) :
    digitLetterStep l = l := by
  induction l with
  | nil => rfl
  | cons c rest ih =>
    cases rest with
    | nil => rfl
    | cons c2 rest2 =>
      simp only [okDigitLetter, Bool.and_eq_true, Bool.not_eq_true'] at h
      simpa [digitLetterStep, h.1] using ih (by simpa [okDigitLetter] using h.2)

theorem closeParenStep_eq_self (l : List Char) (h : okCloseParen l = true) :
    closeParenStep l = l := by
  induction l with
  | nil => rfl
  | cons c rest ih =>
    simp only [okCloseParen, Bool.and_eq_true, Bool.not_eq_true'] at h
    simp [closeParenStep, h.1, ih h.2]

theorem digitParenStep_eq_self (l : List Char) (h : okDigitParen l = true) :
    digitParenStep false l = l := by
  induction l with
  | nil => rfl
  | cons c rest ih =>
    simp only [okDigitParen, Bool.and_eq_true, Bool.not_eq_true'] at h
    simp [digitParenStep, h.1, ih h.2]

theorem parenParenStep_eq_self (l : List Char) (h : okParenParen l = true) :
    parenParenStep false l = l := by
  induction l with
  | nil => rfl
  | cons c rest ih =>
    simp only [okParenParen, Bool.and_eq_true, Bool.not_eq_true'] at h
    simp [parenParenStep, h.1, ih h.2]

theorem collapseWsStep_true_of_head (l : List Char)
    (h : l.head?.all (fun d => !isWs d) = true) :
    collapseWsStep true l = collapseWsStep false l := by
  cases l with
  | nil => rfl
  | cons c rest =>
    simp only [List.head?_cons, Option.all_some, Bool.not_eq_true'] at h
    simp [collapseWsStep, h]

theorem collapseWsStep_eq_self (l : List Char) (h : okWs l = true) :
    collapseWsStep false l = l := by
  induction l with
  | nil => rfl
  | cons c rest ih =>
    simp only [okWs, Bool.and_eq_true] at h
    by_cases hw : isWs c = true
    · have hsp : c = ' ' ∧ (rest.head?.all fun d => !isWs d) = true := by
        have := h.1
        rw [if_pos hw] at this
        simpa [Bool.and_eq_true] using this
      have : collapseWsStep false (c :: rest) = ' ' :: collapseWsStep true rest := by
        simp [collapseWsStep, hw]
      rw [this, collapseWsStep_true_of_head rest hsp.2, ih h.2, hsp.1]
    · simp [collapseWsStep, hw, ih h.2]

theorem eqStep_eq_self (l : List Char) (h : '=' ∉ l) : eqStep l = l := by
  simp [eqStep, h]

/-- On engine-acceptable input the whole normalizer is the identity. -/
theorem parseList_eq_self (l : List Char) (h : engineAcceptable l = true) :
    parseList l = l := by
  simp only [engineAcceptable, Bool.and_eq_true, Bool.not_eq_true',
    decide_eq_false_iff_not] at h
  obtain ⟨⟨⟨⟨⟨⟨⟨h1, h2⟩, h3⟩, h4⟩, h5⟩, h6⟩, h7⟩, h8⟩ := h
  unfold parseList preEq
  rw [trimWs_eq_self l h1, caretStep_eq_self l h2, digitLetterStep_eq_self l h4,
    closeParenStep_eq_self l h5, digitParenStep_eq_self l h6,
    parenParenStep_eq_self l h7, collapseWsStep_eq_self l h8, eqStep_eq_self l h3]

/-! ## The pipeline preserves the presence of `=`

No stage of lines 20-26 deletes an `=` (they only insert `*`, rewrite
`^`, and drop whitespace), so the `includes("=")` test on the processed
string fires exactly when the raw input contained an `=`. -/

theorem eq_mem_dropWhile {l : List Char} (h : '=' ∈ l) : '=' ∈ l.dropWhile isWs := by
  induction l with
  | nil => cases h
  | cons c rest ih =>
    by_cases hw : isWs c = true
    · have hc : c ≠ '=' := by rintro rfl; simp [isWs] at hw
      rcases List.mem_cons.mp h with h | h
      · exact absurd h.symm hc
      · simpa [List.dropWhile_cons, hw] using ih h
    · simpa [List.dropWhile_cons, hw] using h

theorem eq_mem_trimWs {l : List Char} (h : '=' ∈ l) : '=' ∈ trimWs l := by
  unfold trimWs dropTrailingWs
  rw [List.mem_reverse]
  exact eq_mem_dropWhile (by rw [List.mem_reverse]; exact eq_mem_dropWhile h)

theorem eq_mem_caretStep {l : List Char} (h : '=' ∈ l) : '=' ∈ caretStep l := by
  induction l with
  | nil => cases h
  | cons c rest ih =>
    rcases List.mem_cons.mp h with h | h
    · subst h; simp [caretStep]
    · by_cases hc : c = '^' <;> simp [caretStep, hc, ih h]

theorem eq_mem_digitLetterStep : ∀ {l : List Char}, '=' ∈ l → '=' ∈ digitLetterStep l
  | [], h => absurd h (by simp)
  | [c], h => by simpa [digitLetterStep] using h
  | c1 :: c2 :: rest, h => by
    have hd : isDigitCh '=' = false := by decide
    by_cases hm : (isDigitCh c1 && isLetterCh c2) = true
    · rcases List.mem_cons.mp h with h1 | h2
      · cases h1; simp [digitLetterStep, hd]
      · rcases List.mem_cons.mp h2 with h1 | h3
        · cases h1
          have hl : isLetterCh '=' = false := by decide
          simp [hl] at hm
        · simp [digitLetterStep, hm, eq_mem_digitLetterStep h3]
    · rcases List.mem_cons.mp h with h1 | h2
      · cases h1; simp [digitLetterStep, hd]
      · simp [digitLetterStep, hm, eq_mem_digitLetterStep h2]

theorem eq_mem_closeParenStep {l : List Char} (h : '=' ∈ l) :
    '=' ∈ closeParenStep l := by
  induction l with
  | nil => cases h
  | cons c rest ih =>
    by_cases hm : (c = ')' && wsAlnumAfter rest) = true
    · rcases List.mem_cons.mp h with h1 | h2
      · simp [closeParenStep, hm, h1.symm]
      · simp [closeParenStep, hm, ih h2]
    · rcases List.mem_cons.mp h with h1 | h2
      · simp [closeParenStep, hm, h1.symm]
      · simp [closeParenStep, hm, ih h2]

theorem eq_mem_digitParenStep :
    ∀ (b : Bool) {l : List Char}, '=' ∈ l → '=' ∈ digitParenStep b l
  | _, [], h => absurd h (by simp)
  | true, c :: rest, h => by
    by_cases hw : isWs c = true
    · have hc : c ≠ '=' := fun e => by subst e; simp [isWs] at hw
      rcases List.mem_cons.mp h with h1 | h2
      · exact absurd h1.symm hc
      · simpa [digitParenStep, hw] using eq_mem_digitParenStep true h2
    · rcases List.mem_cons.mp h with h1 | h2
      · cases h1; simp [digitParenStep, show isWs '=' = false from by decide]
      · simp [digitParenStep, hw, eq_mem_digitParenStep false h2]
  | false, c :: rest, h => by
    have hd : isDigitCh '=' = false := by decide
    by_cases hm : (isDigitCh c && wsParenAfter rest) = true
    · rcases List.mem_cons.mp h with h1 | h2
      · cases h1; simp [digitParenStep, hd]
      · simp [digitParenStep, hm, eq_mem_digitParenStep true h2]
    · rcases List.mem_cons.mp h with h1 | h2
      · cases h1; simp [digitParenStep, hd]
      · simp [digitParenStep, hm, eq_mem_digitParenStep false h2]

theorem eq_mem_parenParenStep :
    ∀ (b : Bool) {l : List Char}, '=' ∈ l → '=' ∈ parenParenStep b l
  | _, [], h => absurd h (by simp)
  | true, c :: rest, h => by
    by_cases hw : isWs c = true
    · have hc : c ≠ '=' := fun e => by subst e; simp [isWs] at hw
      rcases List.mem_cons.mp h with h1 | h2
      · exact absurd h1.symm hc
      · simpa [parenParenStep, hw] using eq_mem_parenParenStep true h2
    · rcases List.mem_cons.mp h with h1 | h2
      · cases h1; simp [parenParenStep, show isWs '=' = false from by decide]
      · simp [parenParenStep, hw, eq_mem_parenParenStep false h2]
  | false, c :: rest, h => by
    by_cases hm : (c = ')' && wsParenAfter rest) = true
    · rcases List.mem_cons.mp h with h1 | h2
      · simp [parenParenStep, hm, h1.symm]
      · simp [parenParenStep, hm, eq_mem_parenParenStep true h2]
    · rcases List.mem_cons.mp h with h1 | h2
      · simp [parenParenStep, hm, h1.symm]
      · simp [parenParenStep, hm, eq_mem_parenParenStep false h2]

theorem eq_mem_collapseWsStep :
    ∀ (b : Bool) {l : List Char}, '=' ∈ l → '=' ∈ collapseWsStep b l
  | _, [], h => absurd h (by simp)
  | b, c :: rest, h => by
    by_cases hw : isWs c = true
    · have hc : c ≠ '=' := fun e => by subst e; simp [isWs] at hw
      rcases List.mem_cons.mp h with h1 | h2
      · exact absurd h1.symm hc
      · have := eq_mem_collapseWsStep true h2
        cases b <;> simp [collapseWsStep, hw, this]
    · rcases List.mem_cons.mp h with h1 | h2
      · cases h1; simp [collapseWsStep, show isWs '=' = false from by decide]
      · simp [collapseWsStep, hw, eq_mem_collapseWsStep false h2]

/-- `=`-presence is preserved by the whole pre-equation pipeline. -/
theorem eq_mem_preEq {l : List Char} (h : '=' ∈ l) : '=' ∈ preEq l :=
  eq_mem_collapseWsStep false (eq_mem_parenParenStep false (eq_mem_digitParenStep false
    (eq_mem_closeParenStep (eq_mem_digitLetterStep (eq_mem_caretStep (eq_mem_trimWs h))))))

/-! ## The first-`=` split computed by `eqStep` -/

/-- `findIdx` locates the first `=`: the list decomposes around it with
no `=` before it. -/
theorem eqIdx_split (l : List Char) (h : '=' ∈ l) :
    l.take (eqIdx l) ++ '=' :: l.drop (eqIdx l + 1) = l ∧
    '=' ∉ l.take (eqIdx l) := by
  induction l with
  | nil => cases h
  | cons c rest ih =>
    by_cases hc : c = '='
    · subst hc
      simp [eqIdx, List.findIdx_cons]
    · have hr : '=' ∈ rest := by
        rcases List.mem_cons.mp h with h1 | h2
        · exact absurd h1.symm hc
        · exact h2
      have hidx : eqIdx (c :: rest) = eqIdx rest + 1 := by
        simp [eqIdx, List.findIdx_cons, hc]
      obtain ⟨ih1, ih2⟩ := ih hr
      constructor
      · rw [hidx]
        simpa [List.take_succ_cons, List.drop_succ_cons] using congrArg (c :: ·) ih1
      · rw [hidx]
        intro hmem
        rw [List.take_succ_cons] at hmem
        rcases List.mem_cons.mp hmem with h1 | h2
        · exact hc h1.symm
        · exact ih2 h2

/-! ## Shape facts about `linspace` (for the sampler post-condition) -/

theorem linspace_length (xMin xMax : ℚ) (n : ℕ) : (linspace xMin xMax n).length = n := by
  by_cases h0 : n = 0
  · simp [linspace, h0]
  · by_cases h1 : n = 1
    · simp [linspace, h0, h1]
    · rw [linspace, if_neg h0, if_neg h1, List.length_map, List.length_range]

theorem cast_pred_sub_one (n : ℕ) (hn : 2 ≤ n) : ((n - 1 : ℕ) : ℚ) = (n : ℚ) - 1 := by
  have h1 : 1 ≤ n := by omega
  push_cast [Nat.cast_sub h1]
  ring

theorem linspace_step_pos {xMin xMax : ℚ} {n : ℕ} (hn : 2 ≤ n) (hlt : xMin < xMax) :
    0 < (xMax - xMin) / ((n : ℚ) - 1) := by
  apply div_pos (sub_pos.mpr hlt)
  have h2 : (2 : ℚ) ≤ (n : ℚ) := by exact_mod_cast hn
  linarith

theorem linspace_eq_map {xMin xMax : ℚ} {n : ℕ} (hn : 2 ≤ n) :
    linspace xMin xMax n =
      (List.range n).map (fun (i : ℕ) => xMin + (i : ℚ) * ((xMax - xMin) / ((n : ℚ) - 1))) := by
  have h0 : n ≠ 0 := by omega
  have h1 : n ≠ 1 := by omega
  rw [linspace, if_neg h0, if_neg h1]

theorem linspace_pairwise {xMin xMax : ℚ} {n : ℕ} (hn : 2 ≤ n) (hlt : xMin < xMax) :
    (linspace xMin xMax n).Pairwise (· < ·) := by
  rw [linspace_eq_map hn]
  apply List.Pairwise.map
  · intro a b hab
    have hstep := linspace_step_pos hn hlt
    have hcast : (a : ℚ) < (b : ℚ) := by exact_mod_cast hab
    nlinarith
  · exact List.pairwise_lt_range n

theorem linspace_mem_left {xMin xMax : ℚ} {n : ℕ} (hn : 2 ≤ n) :
    xMin ∈ linspace xMin xMax n := by
  rw [linspace_eq_map hn]
  have h0 : (0 : ℕ) ∈ List.range n := List.mem_range.mpr (by omega)
  exact List.mem_map.mpr ⟨0, h0, by simp⟩

theorem linspace_last_eq (xMin xMax : ℚ) (n : ℕ) (hn : 2 ≤ n) :
    xMin + ((n - 1 : ℕ) : ℚ) * ((xMax - xMin) / ((n : ℚ) - 1)) = xMax := by
  have hne : (n : ℚ) - 1 ≠ 0 := by
    have h2 : (2 : ℚ) ≤ (n : ℚ) := by exact_mod_cast hn
    linarith
  rw [cast_pred_sub_one n hn]
  field_simp

theorem linspace_mem_right {xMin xMax : ℚ} {n : ℕ} (hn : 2 ≤ n) :
    xMax ∈ linspace xMin xMax n := by
  rw [linspace_eq_map hn]
  have hmem : n - 1 ∈ List.range n := List.mem_range.mpr (by omega)
  exact List.mem_map.mpr ⟨n - 1, hmem, linspace_last_eq xMin xMax n hn⟩

theorem linspace_mem_bounds {xMin xMax : ℚ} {n : ℕ} (hn : 2 ≤ n) (hle : xMin ≤ xMax) :
    ∀ q ∈ linspace xMin xMax n, xMin ≤ q ∧ q ≤ xMax := by
  rw [linspace_eq_map hn]
  intro q hq
  obtain ⟨i, hi, rfl⟩ := List.mem_map.mp hq
  have hi' : i < n := List.mem_range.mp hi
  have hstep : 0 ≤ (xMax - xMin) / ((n : ℚ) - 1) := by
    apply div_nonneg (sub_nonneg.mpr hle)
    have h2 : (2 : ℚ) ≤ (n : ℚ) := by exact_mod_cast hn
    linarith
  constructor
  · have hnn : 0 ≤ (i : ℚ) * ((xMax - xMin) / ((n : ℚ) - 1)) :=
      mul_nonneg (by positivity) hstep
    linarith
  · have hle' : (i : ℚ) ≤ ((n - 1 : ℕ) : ℚ) := by
      exact_mod_cast Nat.le_sub_one_of_lt hi'
    have hmul : (i : ℚ) * ((xMax - xMin) / ((n : ℚ) - 1)) ≤
        ((n - 1 : ℕ) : ℚ) * ((xMax - xMin) / ((n : ℚ) - 1)) :=
      mul_le_mul_of_nonneg_right hle' hstep
    have hlast := linspace_last_eq xMin xMax n hn
    linarith

/-! ## Concrete engine instances used for counterexamples and witnesses -/

/-- An engine whose `sympify` raises (the expression does not parse);
the command bodies themselves would succeed. -/
def sympifyFailEngine : SymEngine Unit where
  sympify := fun _ => Except.error "SyntaxError: invalid syntax (<string>, line 1)"
  solveL := fun _ => Except.ok ""
  solveNumericL := fun _ => Except.ok ""
  evalfL := fun _ => Except.ok ""
  factorL := fun _ => Except.ok ""
  diffL := fun _ => Except.ok ""
  integrateL := fun _ => Except.ok ""
  simplifyL := fun _ => Except.ok ""
  expandL := fun _ => Except.ok ""

/-- An engine whose `sympify` succeeds but whose `solve` body raises. -/
def bodyFailEngine : SymEngine Unit where
  sympify := fun _ => Except.ok ()
  solveL := fun _ => Except.error "list index out of range"
  solveNumericL := fun _ => Except.ok ""
  evalfL := fun _ => Except.ok ""
  factorL := fun _ => Except.ok ""
  diffL := fun _ => Except.ok ""
  integrateL := fun _ => Except.ok ""
  simplifyL := fun _ => Except.ok ""
  expandL := fun _ => Except.ok ""

/-- An engine on which every operation succeeds. -/
def okEngine : SymEngine Unit where
  sympify := fun _ => Except.ok ()
  solveL := fun _ => Except.ok "x"
  solveNumericL := fun _ => Except.ok "x"
  evalfL := fun _ => Except.ok "x"
  factorL := fun _ => Except.ok "x"
  diffL := fun _ => Except.ok "x"
  integrateL := fun _ => Except.ok "x"
  simplifyL := fun _ => Except.ok "x"
  expandL := fun _ => Except.ok "x"

/-! ## Claim C1 (corrected) -/

/-- C1, counterexample: a parse failure of the normalized expression is
raised by `sympify`, which the generated program runs OUTSIDE its
`try` block, so `runSympyCommand` propagates the raw engine fault as a
rejection instead of returning an `"Error:"`-prefixed text result. -/
theorem runSympyCommand_raw_fault_on_parse_error :
    runSympyCommand sympifyFailEngine "2**" "solve" =
      Except.error "SyntaxError: invalid syntax (<string>, line 1)" ∧
    (runSympyCommand sympifyFailEngine "2**" "solve").isOk = false :=
  ⟨rfl, rfl⟩

/-- C1, amended: every engine exception raised while executing the
command-specific body (the `try` block) is caught and converted into a
result text beginning with the fixed `"Error:"` marker; only a `sympify`
parse failure escapes unconverted. -/
theorem runSympyCommand_body_error_converted {α : Type} (eng : SymEngine α)
    (exprParsed command : String) (ex : α) (msg : String)
    (hs : eng.sympify exprParsed = Except.ok ex)
    (hb : runBody eng command ex = Except.error msg) :
    runSympyCommand eng exprParsed command = Except.ok ("Error: " ++ msg) ∧
    ∃ t : String, "Error: " ++ msg = "Error:" ++ t := by
  constructor
  · unfold runSympyCommand
    rw [hs]
    show (match runBody eng command ex with
      | Except.error m => Except.ok ("Error: " ++ m)
      | Except.ok s => Except.ok s) = Except.ok ("Error: " ++ msg)
    rw [hb]
  · refine ⟨" " ++ msg, ?_⟩
    rw [← String.append_assoc]
    exact congrArg (fun z => z ++ msg) (by decide)

/-- C1, witness: a `solve` body failure on a successfully parsed
expression comes back as the `"Error: "`-prefixed text. -/
theorem runSympyCommand_body_error_converted_witness :
    bodyFailEngine.sympify "x**2-4" = Except.ok () ∧
    runBody bodyFailEngine "solve" () = Except.error "list index out of range" ∧
    runSympyCommand bodyFailEngine "x**2-4" "solve" =
      Except.ok ("Error: " ++ "list index out of range") :=
  ⟨rfl, rfl,
    (runSympyCommand_body_error_converted bodyFailEngine "x**2-4" "solve" ()
      "list index out of range" rfl rfl).1⟩

/-! ## Claim C2 (corrected) -/

/-- C2, counterexample: the spec-side names `solve-numeric` and
`differentiate` are NOT the strings the `switch` recognizes (those are
`solvenumeric` and `diff`), so both fall into the unknown-command
default instead of mapping to a bridge action. -/
theorem commandBody_spec_names_unknown :
    commandBody "solve-numeric" = "result_str = \"Unknown command: solve-numeric\"\n" ∧
    commandBody "differentiate" = "result_str = \"Unknown command: differentiate\"\n" ∧
    commandBody "solve-numeric" ≠ commandBody "solvenumeric" ∧
    commandBody "differentiate" ≠ commandBody "diff" :=
  ⟨by decide, by decide, by decide, by decide⟩

theorem unknown_take20 (c : String) :
    (unknownPre ++ c ++ "\"\n").data.take 20 = unknownPre.data.take 20 := by
  have hd : (unknownPre ++ c ++ "\"\n").data = unknownPre.data ++ (c.data ++ "\"\n".data) := by
    rw [String.data_append, String.data_append, List.append_assoc]
  rw [hd, List.take_append_of_le_length (by decide)]

theorem unknown_ne_of_take (c : String) (b : String)
    (hb : unknownPre.data.take 20 ≠ b.data.take 20) :
    unknownPre ++ c ++ "\"\n" ≠ b := by
  intro he
  exact hb (by rw [← unknown_take20 c, he])

/-- C2, amended: over the command strings the code actually enumerates —
`solve`, `solvenumeric`, `evaluate`, `factor`, `diff`, `integrate`,
`simplify`, `expand`, `graph` — the dispatcher is complete and closed:
`graph` goes to the sampler path, every other recognized command to the
bridge path, and any string outside the enumeration selects the
unknown-command body carrying the offending identifier, distinct from
every recognized command's body (returned as ordinary result text, not
an error value). -/
theorem dispatcher_closed (c : String) (h : c ∉ knownCommands) :
    commandBody c = unknownPre ++ c ++ "\"\n" ∧
    (∀ k ∈ knownCommands, commandBody c ≠ commandBody k) ∧
    dispatchPath "graph" = DispatchPath.sampler ∧
    (∀ k ∈ knownCommands, k ≠ "graph" → dispatchPath k = DispatchPath.bridge) := by
  simp only [knownCommands, List.mem_cons, List.not_mem_nil, or_false, not_or] at h
  obtain ⟨h1, h2, h3, h4, h5, h6, h7, h8, h9⟩ := h
  have hbody : commandBody c = unknownPre ++ c ++ "\"\n" := by
    simp only [commandBody, if_neg h1, if_neg h2, if_neg h3, if_neg h4, if_neg h5,
      if_neg h6, if_neg h7, if_neg h8, if_neg h9]
  refine ⟨hbody, ?_, rfl, ?_⟩
  · intro k hk
    rw [hbody]
    fin_cases hk <;> exact unknown_ne_of_take c _ (by decide)
  · intro k hk hkg
    fin_cases hk <;> simp_all [dispatchPath]

/-- C2, witness: the unrecognized identifier `bogus` yields the
unknown-command body carrying it. -/
theorem dispatcher_closed_witness :
    knownCommands.contains "bogus" = false ∧
    commandBody "bogus" = "result_str = \"Unknown command: bogus\"\n" :=
  ⟨by decide, ((dispatcher_closed "bogus" (by decide)).1).trans (by decide)⟩

/-! ## Claim C3 (code bug) -/

/-- C3: sampling `1/x` with 21 points on `[-10, 10]` does NOT succeed
with a single absent entry, contrary to the spec and to the function's
own doc comment: the grid contains `x = 0` exactly, NumPy evaluates
`1/0` to `+∞`, Python's `json.dumps` serializes it as the bare token
`Infinity`, and `JSON.parse` on the JS side rejects that token, so the
whole operation fails (the sanitize step that would map non-finite
values to `null` is unreachable).  The remaining conjuncts trace the
mechanism. -/
theorem computeXY_recip_json_failure :
    computeXYWithPyodide recipVal (-10) 10 21 =
      Except.error "SyntaxError: Unexpected non-whitespace character after JSON" ∧
    recipVal 0 = PyVal.posInf ∧
    toJsonTok PyVal.posInf = JsonNumTok.infinityTok ∧
    jsonParsable JsonNumTok.infinityTok = false := by
  refine ⟨?_, by norm_num [recipVal], rfl, rfl⟩
  have h : linspace (-10) 10 21 =
      [-10, -9, -8, -7, -6, -5, -4, -3, -2, -1, 0, 1, 2, 3, 4, 5, 6, 7, 8, 9, 10] := by
    norm_num [linspace, List.range_succ]
  unfold computeXYWithPyodide
  rw [h]
  norm_num [recipVal, toJsonTok, jsonParsable]

/-! ## Claim C4 (corrected) -/

/-- C4, counterexample: with requested count 1 the sample succeeds but
`xs = [xMin]` — the upper endpoint `xMax = 10` is not included, so the
"inclusive of both endpoints" part fails for count 1 (and likewise 0). -/
theorem computeXY_count_one_missing_endpoint :
    computeXYWithPyodide idVal (-10) 10 1 = Except.ok ([-10], [some (-10)]) ∧
    (10 : ℚ) ∉ ([-10] : List ℚ) := by
  constructor
  · have h : linspace (-10) 10 1 = [-10] := by norm_num [linspace]
    unfold computeXYWithPyodide
    rw [h]
    norm_num [idVal, toJsonTok, jsonParsable, sanitizeTok]
  · norm_num

/-- C4, amended: for every requested count `n ≥ 2` (and a nondegenerate
domain), a successful sample returns `xs` and `ys` of length `n`, with
`xs` strictly increasing, both endpoints attained, and every sample
point inside the closed interval. -/
theorem computeXY_shape (f : ℚ → PyVal) (xMin xMax : ℚ) (n : ℕ)
    (hn : 2 ≤ n) (hlt : xMin < xMax) (xs : List ℚ) (ys : List (Option ℚ))
    (h : computeXYWithPyodide f xMin xMax n = Except.ok (xs, ys)) :
    xs.length = n ∧ ys.length = n ∧ xs.Pairwise (· < ·) ∧
    xMin ∈ xs ∧ xMax ∈ xs ∧ ∀ q ∈ xs, xMin ≤ q ∧ q ≤ xMax := by
  unfold computeXYWithPyodide at h
  by_cases hall :
      ((linspace xMin xMax n).map (fun q => toJsonTok (f q))).all jsonParsable = true
  · rw [if_pos hall] at h
    rw [Except.ok.injEq, Prod.mk.injEq] at h
    obtain ⟨hxs, hys⟩ := h
    subst hxs
    subst hys
    refine ⟨linspace_length xMin xMax n, ?_, linspace_pairwise hn hlt,
      linspace_mem_left hn, linspace_mem_right hn, linspace_mem_bounds hn hlt.le⟩
    rw [List.length_map, List.length_map, linspace_length]
  · rw [if_neg hall] at h
    exact absurd h (by simp)

/-- C4, witness: a 3-point sample of the identity function on
`[-10, 10]` has the amended shape. -/
theorem computeXY_shape_witness :
    (2 ≤ 3 ∧ ((-10 : ℚ) < 10) ∧
      computeXYWithPyodide idVal (-10) 10 3 =
        Except.ok ([-10, 0, 10], [some (-10), some 0, some 10])) ∧
    ([(-10 : ℚ), 0, 10].length = 3 ∧
      [some ((-10 : ℚ)), some 0, some 10].length = 3 ∧
      (-10 : ℚ) ∈ [(-10 : ℚ), 0, 10] ∧ (10 : ℚ) ∈ [(-10 : ℚ), 0, 10]) := by
  have heval : computeXYWithPyodide idVal (-10) 10 3 =
      Except.ok ([-10, 0, 10], [some (-10), some 0, some 10]) := by
    have h : linspace (-10) 10 3 = [-10, 0, 10] := by
      norm_num [linspace, List.range_succ]
    unfold computeXYWithPyodide
    rw [h]
    norm_num [idVal, toJsonTok, jsonParsable, sanitizeTok]
  have hmain := computeXY_shape idVal (-10) 10 3 (by norm_num) (by norm_num) _ _ heval
  exact ⟨⟨by norm_num, by norm_num, heval⟩,
    hmain.1, hmain.2.1, hmain.2.2.2.1, hmain.2.2.2.2.1⟩

/-! ## Claim C5 (confirmed) -/

/-- C5: when the input contains `=`, the normalizer splits the processed
string exactly once, at its first `=` (the part before the split
contains no `=`), and rewrites it to `lhs-(rhs)` — the whitespace
around the `=` being absorbed; in particular `x+1=3` becomes `x+1-(3)`
and with several `=` only the first is consumed (`x=1=2` becomes
`x-(1=2)`). -/
theorem parseExpression_eq_split (s : String) (h : '=' ∈ s.data) :
    (∃ l1 l2 : List Char,
      preEq s.data = l1 ++ '=' :: l2 ∧ '=' ∉ l1 ∧
      parseExpression s =
        String.mk (dropTrailingWs l1 ++ ('-' :: '(' :: l2.dropWhile isWs) ++ [')'])) ∧
    parseExpression "x+1=3" = "x+1-(3)" ∧
    parseExpression "x=1=2" = "x-(1=2)" := by
  refine ⟨?_, by decide, by decide⟩
  have hp : '=' ∈ preEq s.data := eq_mem_preEq h
  obtain ⟨hsplit, hnot⟩ := eqIdx_split (preEq s.data) hp
  refine ⟨(preEq s.data).take (eqIdx (preEq s.data)),
    (preEq s.data).drop (eqIdx (preEq s.data) + 1), hsplit.symm, hnot, ?_⟩
  unfold parseExpression parseList
  congr 1
  unfold eqStep
  rw [if_pos hp]

/-- C5, witness at the spec's own example. -/
theorem parseExpression_eq_split_witness :
    ('=' ∈ ("x+1=3" : String).data) ∧ parseExpression "x+1=3" = "x+1-(3)" :=
  ⟨by decide, (parseExpression_eq_split "x+1=3" (by decide)).2.1⟩

/-! ## Claim C6 (confirmed) -/

/-- C6: one multiplication marker per implicit-multiplication site, and
`^` becomes the two-symbol power operator with nothing else altered. -/
theorem parseExpression_insertion_examples :
    parseExpression "2x" = "2*x" ∧
    parseExpression "3(x+1)" = "3*(x+1)" ∧
    parseExpression "(x+1)(x-1)" = "(x+1)*(x-1)" ∧
    parseExpression "x^2" = "x**2" :=
  ⟨by decide, by decide, by decide, by decide⟩

/-! ## Claim C7 (confirmed) -/

/-- C7: the normalizer is idempotent on engine-acceptable input (no
caret, no equals sign, no implicit-multiplication site, whitespace
already collapsed and trimmed): it fixes such strings, hence applying
it twice equals applying it once. -/
theorem parseExpression_idempotent (s : String)
    (h : engineAcceptable s.data = true) :
    parseExpression (parseExpression s) = parseExpression s := by
  have hfix : parseExpression s = s := by
    show String.mk (parseList s.data) = s
    rw [parseList_eq_self s.data h]
  rw [hfix]
  exact hfix

/-- C7, witness on an engine-acceptable string. -/
theorem parseExpression_idempotent_witness :
    engineAcceptable ("x + 1" : String).data = true ∧
    parseExpression (parseExpression "x + 1") = parseExpression "x + 1" :=
  ⟨by decide, parseExpression_idempotent "x + 1" (by decide)⟩

/-! ## Claim C8 (confirmed) -/

/-- C8: the normalizer is a total function on strings — the embedding is
a plain total Lean function (the JS body calls only non-throwing string
operations on a string receiver), returning a string on every input,
including the empty string and malformed input. -/
theorem parseExpression_total :
    (∀ s : String, ∃ t : String, parseExpression s = t) ∧
    parseExpression "" = "" ∧
    parseExpression "((((" = "((((" ∧
    parseExpression "=(^" = "-((**)" :=
  ⟨fun s => ⟨parseExpression s, rfl⟩, by decide, by decide, by decide⟩

/-! ## Claim C9 (confirmed) -/

/-- C9: a non-string argument is returned unchanged by the
`typeof expr !== "string"` early return. -/
theorem parseExpressionJs_nonstring (v : JsValue) (h : isStrVal v = false) :
    parseExpressionJs v = v := by
  cases v with
  | str s => simp [isStrVal] at h
  | num q => rfl
  | boolean b => rfl
  | nullV => rfl
  | undefinedV => rfl

/-- C9, witness on a number value. -/
theorem parseExpressionJs_nonstring_witness :
    isStrVal (JsValue.num 5) = false ∧
    parseExpressionJs (JsValue.num 5) = JsValue.num 5 :=
  ⟨rfl, parseExpressionJs_nonstring (JsValue.num 5) rfl⟩

/-! ## Claim C10 (corrected) -/

/-- C10, counterexample: even for the `graph` command the generated
program still runs `sympify` first (outside the `try`), so on an
unparseable expression `runSympyCommand` rejects instead of returning
the sentinel. -/
theorem runSympyCommand_graph_raw_fault :
    runSympyCommand sympifyFailEngine "x*+" "graph" =
      Except.error "SyntaxError: invalid syntax (<string>, line 1)" :=
  rfl

/-- C10, amended: for every expression the engine parses successfully,
invoking the bridge with `graph` does not reject and returns the
sentinel text `GRAPH_COMMAND` as an ordinary successful result. -/
theorem runSympyCommand_graph_sentinel {α : Type} (eng : SymEngine α)
    (exprParsed : String) (ex : α)
    (hs : eng.sympify exprParsed = Except.ok ex) :
    runSympyCommand eng exprParsed "graph" = Except.ok "GRAPH_COMMAND" := by
  unfold runSympyCommand
  rw [hs]
  show (match runBody eng "graph" ex with
    | Except.error m => Except.ok ("Error: " ++ m)
    | Except.ok s => Except.ok s) = Except.ok "GRAPH_COMMAND"
  rfl

/-- C10, witness. -/
theorem runSympyCommand_graph_sentinel_witness :
    okEngine.sympify "1/x" = Except.ok () ∧
    runSympyCommand okEngine "1/x" "graph" = Except.ok "GRAPH_COMMAND" :=
  ⟨rfl, runSympyCommand_graph_sentinel okEngine "1/x" () rfl⟩

